import Mathlib

/-
Verification development for the pyesridump repository.

The visible source under src/ is esridump/cli.py, the command-line driver.
The extraction engine it imports (EsriDumper and DumperState from the
esridump package) is not part of the visible source, so those components
are modelled from the specification (each such definition carries a
doc comment beginning "Modelled from the spec:").  Everything in the
command-line driver itself is embedded directly from src/esridump/cli.py.

Conventions: Python dicts are embedded as ordered association lists,
Python exceptions as Except / explicit result constructors, the
filesystem as a function from path to optional file contents, and the
iteration of the dumper as a finite list of yielded records together
with a flag saying whether iteration ended in an exception.
-/

set_option autoImplicit false

namespace Esridump

/-! ## Checkpoint state (DumperState)

Modelled from the spec: the class DumperState from esridump.state is not
in the visible source.  Per the spec (section 3, CheckpointState) it holds
a strategy tag with the corresponding pagination position, a fingerprint
of the extraction configuration, and a format version tag; encode
produces a deterministic text form and decode rejects malformed text with
StateCorrupt and unknown versions with StateVersionMismatch. -/

/-- Errors raised by checkpoint decoding, per spec section 7. -/
inductive StateError where
  | stateCorrupt
  | stateVersionMismatch
  deriving DecidableEq, Repr

/-- Modelled from the spec: PaginationPosition, a tagged variant.  The
offset variant holds the next offset to request and an optional total
known so far; the identifier-batch variant holds the ordered remaining
object identifiers not yet fetched and the batch size used to chunk
them (spec section 3). -/
inductive PaginationPosition where
  | offset (nextOffset : Nat) (totalKnown : Option Nat)
  | identifierBatch (remaining : List Nat) (batchSize : Nat)
  deriving DecidableEq, Repr

/-- Modelled from the spec: the checkpoint state (DumperState in the
source).  The strategy tag of the spec is carried by the variant of
position; the format version tag is stamped by encode rather than
stored, since every reachable state of this engine version encodes with
the current version. -/
structure DumperState where
  fingerprint : Nat
  position : PaginationPosition
  deriving DecidableEq, Repr

/-- Modelled from the spec: the current checkpoint format version tag. -/
def stateFormatVersion : Nat := 1

/-- Unary rendering of a natural number, terminated by a semicolon. -/
def encNat (n : Nat) : List Char :=
  List.replicate n 'I' ++ [';']

/-- Rendering of an optional natural number. -/
def encOptNat : Option Nat → List Char
  | none => ['N']
  | some n => 'S' :: encNat n

/-- Rendering of a list of naturals: the length, then each element. -/
def encNatList (l : List Nat) : List Char :=
  encNat l.length ++ l.foldr (fun n acc => encNat n ++ acc) []

/-- Rendering of a pagination position, tagged by its first character. -/
def encPosition : PaginationPosition → List Char
  | .offset n t => 'O' :: (encNat n ++ encOptNat t)
  | .identifierBatch ids bs => 'B' :: (encNatList ids ++ encNat bs)

/-- Modelled from the spec: deterministic serialization of a checkpoint
state (DumperState.encode), stamping the current format version first. -/
def DumperState.encode (s : DumperState) : String :=
  String.mk (encNat stateFormatVersion ++ encNat s.fingerprint ++ encPosition s.position)

/-- Reads one unary natural number from the front of the text. -/
def readNat : List Char → Except StateError (Nat × List Char)
  | ';' :: rest => .ok (0, rest)
  | 'I' :: rest =>
      match readNat rest with
      | .ok (n, r) => .ok (n + 1, r)
      | .error e => .error e
  | _ => .error .stateCorrupt

/-- Reads an optional natural number from the front of the text. -/
def readOptNat : List Char → Except StateError (Option Nat × List Char)
  | 'N' :: rest => .ok (none, rest)
  | 'S' :: rest =>
      match readNat rest with
      | .ok (n, r) => .ok (some n, r)
      | .error e => .error e
  | _ => .error .stateCorrupt

/-- Reads a counted sequence of natural numbers from the front of the text. -/
def readNats : Nat → List Char → Except StateError (List Nat × List Char)
  | 0, rest => .ok ([], rest)
  | count + 1, rest =>
      match readNat rest with
      | .ok (n, r) =>
          match readNats count r with
          | .ok (ns, r2) => .ok (n :: ns, r2)
          | .error e => .error e
      | .error e => .error e

/-- Reads a pagination position from the front of the text. -/
def readPosition : List Char → Except StateError (PaginationPosition × List Char)
  | 'O' :: rest =>
      (match readNat rest with
       | .ok (n, r) =>
           match readOptNat r with
           | .ok (t, r2) => .ok (.offset n t, r2)
           | .error e => .error e
       | .error e => .error e)
  | 'B' :: rest =>
      (match readNat rest with
       | .ok (count, r) =>
           match readNats count r with
           | .ok (ids, r2) =>
               match readNat r2 with
               | .ok (bs, r3) => .ok (.identifierBatch ids bs, r3)
               | .error e => .error e
           | .error e => .error e
       | .error e => .error e)
  | _ => .error .stateCorrupt

/-- Modelled from the spec: DumperState.decode, failing with
StateCorrupt on malformed text and StateVersionMismatch on an
unrecognized format version. -/
def DumperState.decode (text : String) : Except StateError DumperState :=
  match readNat text.data with
  | .error e => .error e
  | .ok (v, r) =>
      if v = stateFormatVersion then
        match readNat r with
        | .error e => .error e
        | .ok (fp, r2) =>
            match readPosition r2 with
            | .error e => .error e
            | .ok (pos, r3) =>
                if r3 = [] then .ok { fingerprint := fp, position := pos }
                else .error .stateCorrupt
      else .error .stateVersionMismatch

theorem readNat_encNat (n : Nat) (rest : List Char) :
    readNat (encNat n ++ rest) = .ok (n, rest) := by
  induction n with
  | zero => simp [encNat, readNat]
  | succ k ih => simp [encNat, readNat] at ih ⊢; simp [List.replicate_succ, readNat, ih]

theorem readOptNat_encOptNat (t : Option Nat) (rest : List Char) :
    readOptNat (encOptNat t ++ rest) = .ok (t, rest) := by
  cases t with
  | none => simp [encOptNat, readOptNat]
  | some n => simp [encOptNat, readOptNat, readNat_encNat]

theorem readNats_encNatList (l : List Nat) (rest : List Char) :
    readNats l.length (l.foldr (fun n acc => encNat n ++ acc) [] ++ rest) = .ok (l, rest) := by
  induction l with
  | nil => simp [readNats]
  | cons n ns ih => simp [readNats, readNat_encNat, ih]

theorem readPosition_encPosition (p : PaginationPosition) (rest : List Char) :
    readPosition (encPosition p ++ rest) = .ok (p, rest) := by
  cases p with
  | offset n t =>
      simp [encPosition, readPosition, readNat_encNat, readOptNat_encOptNat]
  | identifierBatch ids bs =>
      simp [encPosition, encNatList, readPosition, readNat_encNat,
        readNats_encNatList, readNat_encNat]

theorem readPosition_encPosition_nil (p : PaginationPosition) :
    readPosition (encPosition p) = .ok (p, []) := by
  rw [← List.append_nil (encPosition p), readPosition_encPosition]

/-- Round trip of the checkpoint codec: decoding an encoded state
recovers the state exactly. -/
theorem DumperState.decode_encode (s : DumperState) :
    DumperState.decode (DumperState.encode s) = .ok s := by
  simp only [DumperState.decode, DumperState.encode]
  rw [List.append_assoc, readNat_encNat]
  simp [readNat_encNat, readPosition_encPosition_nil]

/-! ## Feature cursor

Modelled from the spec: the EsriDumper iteration engine is not in the
visible source.  Per spec section 4.3, the offset strategy repeatedly
requests page-size records at the current offset, advances the offset by
the number of records returned, terminates on an empty or short page,
and fails with PaginationStalled when every identifier of a returned
page already occurred among the identifiers of the prior page.  The
remote service is modelled as a function from offset to the page of
records it returns; fuel bounds the number of requests a run may issue,
since a misbehaving service could otherwise keep a cursor alive forever. -/

/-- Modelled from the spec: a feature record, an identifier plus an
uninterpreted payload standing for the attribute and geometry mappings. -/
structure Feature where
  oid : Nat
  payload : String
  deriving DecidableEq, Repr

/-- Errors that terminate a cursor run.  The outOfFuel constructor is a
modelling artifact marking runs whose request budget was exhausted. -/
inductive DumpError where
  | paginationStalled
  | outOfFuel
  deriving DecidableEq, Repr

/-- Modelled from the spec: one offset-strategy run.  Each step fetches
the page at the current offset, stops on an empty page, fails with
PaginationStalled when no returned identifier differs from the prior
page identifiers, stops after a short page, and otherwise yields the
page and advances the offset by the number of records returned. -/
def offsetRun (server : Nat → List Feature) (pageSize : Nat) :
    Nat → Nat → List Nat → Except DumpError (List Feature)
  | 0, _, _ => .error .outOfFuel
  | fuel + 1, offset, priorIds =>
      let page := server offset
      if page = [] then .ok []
      else if page.all (fun f => decide (f.oid ∈ priorIds)) then
        .error .paginationStalled
      else if page.length < pageSize then .ok page
      else
        (offsetRun server pageSize fuel (offset + page.length)
            (page.map Feature.oid)).map (fun rest => page ++ rest)

theorem offsetRun_succ (server : Nat → List Feature) (pageSize fuel offset : Nat)
    (priorIds : List Nat) :
    offsetRun server pageSize (fuel + 1) offset priorIds =
      (if server offset = [] then .ok []
       else if (server offset).all (fun f => decide (f.oid ∈ priorIds)) then
         .error .paginationStalled
       else if (server offset).length < pageSize then .ok (server offset)
       else (offsetRun server pageSize fuel (offset + (server offset).length)
          ((server offset).map Feature.oid)).map (fun rest => server offset ++ rest)) :=
  rfl

/-- A well-behaved remote service over a fixed dataset: the page at a
given offset is the next page-size records of the dataset. -/
def sliceServer (dataset : List Feature) (pageSize : Nat) : Nat → List Feature :=
  fun offset => (dataset.drop offset).take pageSize

/-- Modelled from the spec: one identifier-batch run.  The outstanding
identifiers are processed in contiguous chunks of the batch size; each
request asks the service for the records matching exactly the chunk, and
fetched identifiers are removed from the outstanding sequence. -/
def oidRun (server : List Nat → List Feature) (batchSize : Nat) :
    Nat → List Nat → Except DumpError (List Feature)
  | _, [] => .ok []
  | 0, _ :: _ => .error .outOfFuel
  | fuel + 1, id0 :: ids =>
      let chunk := (id0 :: ids).take batchSize
      let page := server chunk
      (oidRun server batchSize fuel ((id0 :: ids).drop batchSize)).map
        (fun rest => page ++ rest)

/-- A well-behaved identifier server over a fixed dataset: it returns
the records whose identifier is in the requested chunk. -/
def idServer (dataset : List Feature) : List Nat → List Feature :=
  fun ids => dataset.filter (fun f => ids.contains f.oid)

/-- A full uninterrupted offset-strategy run over a dataset, started at
offset zero with no prior page and enough fuel for the whole dataset. -/
def dumpAll (dataset : List Feature) (pageSize : Nat) : Except DumpError (List Feature) :=
  offsetRun (sliceServer dataset pageSize) pageSize (dataset.length + 1) 0 []

/-- Modelled from the spec: a fresh cursor built from a checkpoint
state resumes at the persisted pagination position. -/
def resumeDump (dataset : List Feature) (pageSize : Nat) (s : DumperState) :
    Except DumpError (List Feature) :=
  match s.position with
  | .offset n _ => offsetRun (sliceServer dataset pageSize) pageSize (dataset.length + 1) n []
  | .identifierBatch ids bs => oidRun (idServer dataset) bs (ids.length + 1) ids

theorem offsetRun_sliceServer (dataset : List Feature) (pageSize : Nat)
    (hps : 0 < pageSize) (hnd : (dataset.map Feature.oid).Nodup) :
    ∀ fuel offset priorIds, (dataset.drop offset).length < fuel →
      (∀ f ∈ dataset.drop offset, f.oid ∉ priorIds) →
      offsetRun (sliceServer dataset pageSize) pageSize fuel offset priorIds =
        .ok (dataset.drop offset) := by
  intro fuel
  induction fuel with
  | zero => exact fun offset priorIds hlt _ => absurd hlt (by omega)
  | succ fuel ih =>
      intro offset priorIds hlt hdisj
      rw [offsetRun]
      simp only [sliceServer]
      by_cases hL : dataset.drop offset = []
      · rw [hL]
        simp
      · have hpage : (dataset.drop offset).take pageSize ≠ [] := by
          intro h
          have hlen0 := congrArg List.length h
          rw [List.length_take, List.length_nil] at hlen0
          rcases Nat.min_eq_zero_iff.mp hlen0 with h1 | h2
          · omega
          · exact hL (List.eq_nil_of_length_eq_zero h2)
        rw [if_neg hpage]
        have hmem_take : ∀ g ∈ (dataset.drop offset).take pageSize, g ∈ dataset.drop offset :=
          fun g hg => List.mem_of_mem_take hg
        have hstall : ¬ ((dataset.drop offset).take pageSize).all
            (fun f => decide (f.oid ∈ priorIds)) = true := by
          intro hall
          rw [List.all_eq_true] at hall
          rcases List.exists_mem_of_ne_nil _ hpage with ⟨g, hg⟩
          have := hall g hg
          rw [decide_eq_true_iff] at this
          exact hdisj g (hmem_take g hg) this
        rw [if_neg hstall]
        by_cases hshort : ((dataset.drop offset).take pageSize).length < pageSize
        · rw [if_pos hshort]
          have hlen : (dataset.drop offset).length ≤ pageSize := by
            rw [List.length_take] at hshort
            omega
          rw [List.take_of_length_le hlen]
        · rw [if_neg hshort]
          have hlen_take : ((dataset.drop offset).take pageSize).length = pageSize := by
            rw [List.length_take] at hshort ⊢
            omega
          have hdrop2 : dataset.drop (offset + ((dataset.drop offset).take pageSize).length) =
              (dataset.drop offset).drop pageSize := by
            rw [hlen_take, List.drop_drop]
          have hnd_off : ((dataset.drop offset).map Feature.oid).Nodup := by
            have hsub := List.Sublist.map Feature.oid (List.drop_sublist offset dataset)
            exact hnd.sublist hsub
          have hsplit : (dataset.drop offset).map Feature.oid =
              ((dataset.drop offset).take pageSize).map Feature.oid ++
              ((dataset.drop offset).drop pageSize).map Feature.oid := by
            rw [← List.map_append, List.take_append_drop]
          have hdisj2 : ∀ g ∈ (dataset.drop offset).drop pageSize,
              g.oid ∉ ((dataset.drop offset).take pageSize).map Feature.oid := by
            intro g hg hgmem
            rw [hsplit] at hnd_off
            rcases List.nodup_append.mp hnd_off with ⟨_, _, hdisjoint⟩
            exact hdisjoint hgmem (List.mem_map_of_mem Feature.oid hg)
          have hrec := ih (offset + ((dataset.drop offset).take pageSize).length)
            (((dataset.drop offset).take pageSize).map Feature.oid)
            (by
              have h1 : dataset.length - offset < fuel + 1 := by
                rw [List.length_drop] at hlt
                exact hlt
              have h2 : pageSize ≤ dataset.length - offset := by
                rw [List.length_take, List.length_drop] at hlen_take
                omega
              rw [hdrop2, List.length_drop, List.length_drop]
              omega)
            (by
              rw [hdrop2]
              exact hdisj2)
          rw [hrec, hdrop2]
          simp only [Except.map]
          rw [List.take_append_drop]

/-- An uninterrupted offset run over a well-behaved service yields
exactly the dataset. -/
theorem dumpAll_ok (dataset : List Feature) (pageSize : Nat)
    (hps : 0 < pageSize) (hnd : (dataset.map Feature.oid).Nodup) :
    dumpAll dataset pageSize = .ok dataset := by
  have := offsetRun_sliceServer dataset pageSize hps hnd (dataset.length + 1) 0 []
    (by simp) (by simp)
  simpa [dumpAll] using this

/-- A resumed offset run from a checkpoint at offset n yields exactly
the dataset records from position n on. -/
theorem resumeDump_offset (dataset : List Feature) (pageSize : Nat)
    (fp n : Nat) (t : Option Nat)
    (hps : 0 < pageSize) (hnd : (dataset.map Feature.oid).Nodup) :
    resumeDump dataset pageSize { fingerprint := fp, position := .offset n t } =
      .ok (dataset.drop n) := by
  have := offsetRun_sliceServer dataset pageSize hps hnd (dataset.length + 1) n []
    (by simp; omega) (by simp)
  simpa [resumeDump] using this

theorem oidRun_nil (server : List Nat → List Feature) (batchSize fuel : Nat) :
    oidRun server batchSize fuel [] = .ok [] := by
  cases fuel <;> rfl

theorem oidRun_cons (server : List Nat → List Feature) (batchSize fuel : Nat)
    (id0 : Nat) (ids : List Nat) :
    oidRun server batchSize (fuel + 1) (id0 :: ids) =
      (oidRun server batchSize fuel ((id0 :: ids).drop batchSize)).map
        (fun rest => server ((id0 :: ids).take batchSize) ++ rest) :=
  rfl

/-- Filtering a dataset with distinct identifiers by membership of the
identifier in the identifiers of one of its sublists recovers exactly
that sublist. -/
theorem filter_contains_sublist {S l : List Feature} (hsub : S.Sublist l) :
    (l.map Feature.oid).Nodup →
      l.filter (fun f => (S.map Feature.oid).contains f.oid) = S := by
  induction hsub with
  | slnil => intro _; rfl
  | @cons S1 l2 a hsub ih =>
      intro hnd
      rw [List.map_cons, List.nodup_cons] at hnd
      rcases hnd with ⟨ha, hnd⟩
      have hnotmem : a.oid ∉ S1.map Feature.oid :=
        fun hm => ha ((List.Sublist.map Feature.oid hsub).subset hm)
      have hpa : ((S1.map Feature.oid).contains a.oid) = false := by
        simp [hnotmem]
      rw [List.filter_cons, hpa]
      simp only [Bool.false_eq_true, if_false]
      exact ih hnd
  | @cons₂ S1 l2 a hsub ih =>
      intro hnd
      rw [List.map_cons, List.nodup_cons] at hnd
      rcases hnd with ⟨ha, hnd⟩
      rw [List.filter_cons]
      have hpa : (((a :: S1).map Feature.oid).contains a.oid) = true := by
        simp
      rw [hpa]
      simp only [if_true]
      have hcongr : ∀ f ∈ l2, (((a :: S1).map Feature.oid).contains f.oid) =
          ((S1.map Feature.oid).contains f.oid) := by
        intro f hf
        have hne : f.oid ≠ a.oid := by
          intro he
          exact ha (he ▸ List.mem_map_of_mem Feature.oid hf)
        simp [List.map_cons, hne]
      rw [List.filter_congr hcongr, ih hnd]

/-- An identifier-batch run over a well-behaved service, outstanding
identifiers being the dataset identifiers from position m on, yields
exactly the dataset records from position m on. -/
theorem oidRun_idServer (dataset : List Feature) (batchSize : Nat)
    (hbs : 0 < batchSize) (hnd : (dataset.map Feature.oid).Nodup) :
    ∀ fuel m, dataset.length - m < fuel →
      oidRun (idServer dataset) batchSize fuel ((dataset.map Feature.oid).drop m) =
        .ok (dataset.drop m) := by
  intro fuel
  induction fuel with
  | zero => exact fun m hlt => absurd hlt (by omega)
  | succ fuel ih =>
      intro m hlt
      rcases hdm : (dataset.map Feature.oid).drop m with _ | ⟨id0, rest⟩
      · rw [oidRun_nil]
        rw [← List.map_drop] at hdm
        rw [List.map_eq_nil_iff.mp hdm]
      · rw [oidRun_cons, ← hdm]
        have hchunk : ((dataset.map Feature.oid).drop m).take batchSize =
            ((dataset.drop m).take batchSize).map Feature.oid := by
          rw [List.map_take, List.map_drop]
        have hslice : ((dataset.drop m).take batchSize).Sublist dataset :=
          (List.take_sublist batchSize (dataset.drop m)).trans
            (List.drop_sublist m dataset)
        have hpage : idServer dataset (((dataset.map Feature.oid).drop m).take batchSize) =
            (dataset.drop m).take batchSize := by
          rw [idServer, hchunk]
          exact filter_contains_sublist hslice hnd
        have hdrop : ((dataset.map Feature.oid).drop m).drop batchSize =
            (dataset.map Feature.oid).drop (m + batchSize) := by
          rw [List.drop_drop]
        have hlen : 1 ≤ dataset.length - m := by
          have := congrArg List.length hdm
          rw [List.length_drop, List.length_map] at this
          simp [this]
        have hrec := ih (m + batchSize) (by omega)
        rw [hdrop, hrec, hpage]
        simp only [Except.map]
        rw [show dataset.drop (m + batchSize) = (dataset.drop m).drop batchSize from by
          rw [List.drop_drop]]
        rw [List.take_append_drop]

/-! ## Page size resolution

The command line (src/esridump/cli.py, lines 76 to 80) passes the
max-page-size option through to the engine with default -1; the
resolution against the service metadata happens inside the engine, which
is not in the visible source. -/

/-- The default of the -m or max-page-size command-line option
(src/esridump/cli.py, line 78). -/
def defaultMaxPageSize : Int := -1

/-- Modelled from the spec: the maximum page size actually used
downstream is the minimum of the configured override and the advertised
maximum record count when the override is set and positive, and
otherwise the maximum of the advertised count and 1000 (spec
section 4.1). -/
def effectiveMaxPageSize (maxPageSize : Int) (serviceMaxRecordCount : Nat) : Nat :=
  if 0 < maxPageSize then min maxPageSize.toNat serviceMaxRecordCount
  else max serviceMaxRecordCount 1000

/-! ## Header and parameter collection

Embedding of _collect_headers and _collect_params from
src/esridump/cli.py, lines 12 to 27.  Python dicts are embedded as
ordered association lists; dict update semantics (replace the value in
place when the key exists, append otherwise) is dictInsert.  The actual
per-string parsing is done by the Python standard library
(email.parser for headers, urllib parse_qsl for query strings) and is
therefore a parameter of the embedding. -/

/-- Association list standing for a Python dict. -/
def Dict := List (String × String)

/-- Assigning one key in a dict: replace in place if present, else
append, as Python dict assignment does. -/
def dictInsert (d : List (String × String)) (k v : String) : List (String × String) :=
  if d.any (fun p => p.1 = k) then
    d.map (fun p => if p.1 = k then (k, v) else p)
  else d ++ [(k, v)]

/-- Python dict built from a list of key-value pairs: later pairs win. -/
def dictOfPairs (kvs : List (String × String)) : List (String × String) :=
  kvs.foldl (fun d kv => dictInsert d kv.1 kv.2) []

/-- Python dict.update with another dict: assigns every entry of the
other dict, in order. -/
def dictUpdate (d other : List (String × String)) : List (String × String) :=
  other.foldl (fun d kv => dictInsert d kv.1 kv.2) d

/-- Embeds _collect_headers (src/esridump/cli.py lines 12 to 19): start
from an empty dict and update it with the parsed form of each input
string in turn.  parseHeaderLines stands for the RFC-822 style line
parsing done by email.parser in the Python standard library. -/
def collectHeaders (parseHeaderLines : String → List (String × String))
    (strings : List String) : List (String × String) :=
  strings.foldl (fun acc s => dictUpdate acc (dictOfPairs (parseHeaderLines s))) []

/-- Embeds _collect_params (src/esridump/cli.py lines 21 to 27): start
from an empty dict and update it with the parsed form of each input
string in turn.  parseQueryString stands for urllib parse_qsl from the
Python standard library. -/
def collectParams (parseQueryString : String → List (String × String))
    (strings : List String) : List (String × String) :=
  strings.foldl (fun acc s => dictUpdate acc (dictOfPairs (parseQueryString s))) []

/-- The value a dict associates to a key: the value of the first entry
carrying the key. -/
def getVal (k : String) : List (String × String) → Option String
  | [] => none
  | (k2, v) :: rest => if k2 = k then some v else getVal k rest

/-- Left-biased choice on optional values. -/
def orElseO (a b : Option String) : Option String :=
  match a with
  | some v => some v
  | none => b

theorem getVal_replace_ne (k k2 v : String) (hk : k2 ≠ k) (d : List (String × String)) :
    getVal k (d.map (fun p => if p.1 = k2 then (k2, v) else p)) = getVal k d := by
  induction d with
  | nil => rfl
  | cons p rest ih =>
      simp only [List.map_cons]
      by_cases hp : p.1 = k2
      · rw [if_pos hp]
        have hpk : ¬ p.1 = k := fun h => hk (hp ▸ h)
        simp only [getVal, List.append_eq, if_neg hk, if_neg hpk]
        exact ih
      · rw [if_neg hp]
        simp only [getVal, List.append_eq]
        rw [ih]

theorem getVal_replace_eq (k v : String) (d : List (String × String))
    (hany : d.any (fun p => p.1 = k) = true) :
    getVal k (d.map (fun p => if p.1 = k then (k, v) else p)) = some v := by
  induction d with
  | nil => simp at hany
  | cons p rest ih =>
      simp only [List.map_cons]
      by_cases hp : p.1 = k
      · rw [if_pos hp]
        simp [getVal]
      · rw [if_neg hp]
        simp only [getVal, List.append_eq, if_neg hp]
        apply ih
        simp only [List.any_cons, Bool.or_eq_true] at hany
        rcases hany with h | h
        · exact absurd (of_decide_eq_true h) hp
        · exact h

theorem getVal_append_single (k k2 v : String) (d : List (String × String))
    (hany : d.any (fun p => p.1 = k2) = false) :
    getVal k (d ++ [(k2, v)]) = if k2 = k then some v else getVal k d := by
  induction d with
  | nil =>
      simp only [List.nil_append, getVal]
  | cons p rest ih =>
      simp only [List.any_cons, Bool.or_eq_false_iff] at hany
      rcases hany with ⟨hp, hrest⟩
      have hp2 : ¬ p.1 = k2 := by
        intro h
        rw [h] at hp
        simp at hp
      simp only [List.cons_append, getVal, List.append_eq]
      by_cases hpk : p.1 = k
      · have hk2 : ¬ k2 = k := fun h => hp2 (hpk.trans h.symm)
        rw [if_pos hpk, if_neg hk2, if_pos hpk]
      · rw [if_neg hpk, ih hrest, if_neg hpk]

theorem getVal_dictInsert (k k2 v : String) (d : List (String × String)) :
    getVal k (dictInsert d k2 v) = if k2 = k then some v else getVal k d := by
  by_cases hany : d.any (fun p => p.1 = k2) = true
  · rw [dictInsert, if_pos hany]
    by_cases hk : k2 = k
    · subst hk
      rw [if_pos rfl]
      exact getVal_replace_eq _ v d hany
    · rw [if_neg hk, getVal_replace_ne k k2 v hk d]
  · rw [dictInsert, if_neg hany]
    exact getVal_append_single k k2 v d (Bool.eq_false_iff.mpr hany)

theorem keys_dictInsert (k v : String) (d : List (String × String))
    (hnd : (d.map Prod.fst).Nodup) :
    ((dictInsert d k v).map Prod.fst).Nodup := by
  by_cases hany : d.any (fun p => p.1 = k) = true
  · rw [dictInsert, if_pos hany, List.map_map]
    have : d.map (Prod.fst ∘ fun p => if p.1 = k then (k, v) else p) = d.map Prod.fst := by
      apply List.map_congr_left
      intro p _
      by_cases hp : p.1 = k
      · simp [Function.comp, hp]
      · simp [Function.comp, hp]
    rw [this]
    exact hnd
  · rw [dictInsert, if_neg hany, List.map_append]
    have hk : k ∉ d.map Prod.fst := by
      intro hmem
      rcases List.mem_map.mp hmem with ⟨p, hp, hpk⟩
      apply hany
      rw [List.any_eq_true]
      exact ⟨p, hp, by simp [hpk]⟩
    simp only [List.map_cons, List.map_nil]
    rw [List.nodup_append]
    refine ⟨hnd, ?_, ?_⟩
    · exact List.nodup_cons.mpr ⟨List.not_mem_nil k, List.nodup_nil⟩
    · intro a ha hb
      simp only [List.mem_singleton] at hb
      exact hk (hb ▸ ha)

/-- The within-string winner for a key: the value of the last pair of
the parsed string that carries the key, as Python dict construction
from a pair list gives. -/
def lastVal (k : String) (kvs : List (String × String)) : Option String :=
  ((kvs.filter (fun kv => kv.1 = k)).map Prod.snd).getLast?

theorem orElseO_assoc (a b c : Option String) :
    orElseO (orElseO a b) c = orElseO a (orElseO b c) := by
  cases a <;> rfl

theorem orElseO_none_right (a : Option String) : orElseO a none = a := by
  cases a <;> rfl

theorem getLast?_cons_eq (a : String) (l : List String) :
    (a :: l).getLast? = orElseO l.getLast? (some a) := by
  rw [List.getLast?_cons]
  cases l.getLast? <;> rfl

theorem getVal_foldl_insert (k : String) (kvs : List (String × String)) :
    ∀ d, getVal k (kvs.foldl (fun d kv => dictInsert d kv.1 kv.2) d) =
      orElseO (lastVal k kvs) (getVal k d) := by
  induction kvs with
  | nil => intro d; simp [lastVal, orElseO]
  | cons kv rest ih =>
      intro d
      rw [List.foldl_cons, ih, getVal_dictInsert]
      by_cases hkv : kv.1 = k
      · rw [if_pos hkv]
        have hfilter : (kv :: rest).filter (fun q => q.1 = k) =
            kv :: rest.filter (fun q => q.1 = k) := by
          simp [List.filter_cons, hkv]
        have hlv : lastVal k (kv :: rest) = orElseO (lastVal k rest) (some kv.2) := by
          simp only [lastVal]
          rw [hfilter, List.map_cons, getLast?_cons_eq]
        rw [hlv, orElseO_assoc]
        rfl
      · rw [if_neg hkv]
        have hfilter : (kv :: rest).filter (fun q => q.1 = k) =
            rest.filter (fun q => q.1 = k) := by
          simp [List.filter_cons, hkv]
        have hlv : lastVal k (kv :: rest) = lastVal k rest := by
          simp only [lastVal]
          rw [hfilter]
        rw [hlv]

theorem getVal_dictOfPairs (k : String) (kvs : List (String × String)) :
    getVal k (dictOfPairs kvs) = lastVal k kvs := by
  rw [dictOfPairs, getVal_foldl_insert]
  show orElseO (lastVal k kvs) none = _
  rw [orElseO_none_right]

theorem getVal_dictUpdate (k : String) (d other : List (String × String)) :
    getVal k (dictUpdate d other) = orElseO (getVal k (dictOfPairs other)) (getVal k d) := by
  rw [dictUpdate, getVal_foldl_insert, getVal_dictOfPairs]

theorem keys_foldl_insert (kvs : List (String × String)) :
    ∀ d, (d.map Prod.fst).Nodup →
      ((kvs.foldl (fun d kv => dictInsert d kv.1 kv.2) d).map Prod.fst).Nodup := by
  induction kvs with
  | nil => intro d hd; exact hd
  | cons kv rest ih =>
      intro d hd
      rw [List.foldl_cons]
      exact ih (dictInsert d kv.1 kv.2) (keys_dictInsert kv.1 kv.2 d hd)

theorem keys_dictUpdate (d other : List (String × String))
    (hd : (d.map Prod.fst).Nodup) : ((dictUpdate d other).map Prod.fst).Nodup :=
  keys_foldl_insert other d hd

theorem keys_dictOfPairs (kvs : List (String × String)) :
    ((dictOfPairs kvs).map Prod.fst).Nodup :=
  keys_foldl_insert kvs [] List.nodup_nil

theorem lastVal_eq_getVal (k : String) (d : List (String × String))
    (hnd : (d.map Prod.fst).Nodup) : lastVal k d = getVal k d := by
  induction d with
  | nil => rfl
  | cons p rest ih =>
      rw [List.map_cons, List.nodup_cons] at hnd
      rcases hnd with ⟨hk0, hrest⟩
      by_cases hp : p.1 = k
      · have hfilter_rest : rest.filter (fun q => q.1 = k) = [] := by
          rw [List.filter_eq_nil_iff]
          intro q hq
          simp only [decide_eq_true_eq]
          intro hqk
          exact hk0 (List.mem_map.mpr ⟨q, hq, hqk.trans hp.symm⟩)
        have hfilter : (p :: rest).filter (fun q => q.1 = k) = [p] := by
          simp [List.filter_cons, hp, hfilter_rest]
        rw [lastVal, hfilter, getVal, if_pos hp]
        simp
      · have hfilter : (p :: rest).filter (fun q => q.1 = k) =
            rest.filter (fun q => q.1 = k) := by
          simp [List.filter_cons, hp]
        rw [lastVal, hfilter, getVal, if_neg hp, ← ih hrest]
        rfl

theorem getVal_collect_fold (parse : String → List (String × String))
    (k : String) (strings : List String) :
    ∀ d, getVal k (strings.foldl (fun acc s => dictUpdate acc (dictOfPairs (parse s))) d) =
      orElseO ((strings.filterMap (fun s => getVal k (dictOfPairs (parse s)))).getLast?)
        (getVal k d) := by
  induction strings with
  | nil => intro d; rfl
  | cons s rest ih =>
      intro d
      rw [List.foldl_cons, ih, getVal_dictUpdate, getVal_dictOfPairs,
        lastVal_eq_getVal k (dictOfPairs (parse s)) (keys_dictOfPairs (parse s)),
        List.filterMap_cons]
      cases hg : getVal k (dictOfPairs (parse s)) with
      | none => rfl
      | some v =>
          rw [getLast?_cons_eq, orElseO_assoc]

theorem keys_collect_fold (parse : String → List (String × String))
    (strings : List String) :
    ∀ d, (d.map Prod.fst).Nodup →
      ((strings.foldl (fun acc s => dictUpdate acc (dictOfPairs (parse s))) d).map
        Prod.fst).Nodup := by
  induction strings with
  | nil => intro d hd; exact hd
  | cons s rest ih =>
      intro d hd
      rw [List.foldl_cons]
      exact ih _ (keys_dictUpdate d (dictOfPairs (parse s)) hd)

/-! ## The command-line driver (main)

Embedding of main from src/esridump/cli.py, lines 98 to 178.  The parsed
command-line arguments are a record; the filesystem is a function from
path to optional contents together with the append position of the
already-open output file; the iteration of the dumper is a record
listing the features it yields (as their serialized texts) and whether
iteration ends in an exception.  Output is modelled as the list of
strings written to the output file, in order. -/

/-- The fields of the parsed command line that main reads
(src/esridump/cli.py, _parse_args). -/
structure Args where
  url : String
  outfile_name : String
  outfile_is_stdout : Bool
  proxy : Option String
  jsonlines : Bool
  fields : Option String
  request_geometry : Bool
  headers : List String
  params : List String
  timeout : Nat
  max_page_size : Int
  paginate_oid : Bool
  output_format : String
  to_continue : Bool

/-- The parts of the world main touches: files by path, and the current
append position of the output file (outfile.tell()). -/
structure Fs where
  file : String → Option String
  outfile_tell : Nat

/-- The state file path: os.path.join of the directory of the output
file and its base name plus the suffix .state, which for a plain path
is the output file name followed by .state
(src/esridump/cli.py, lines 108 to 111). -/
def stateFilename (outfile_name : String) : String :=
  outfile_name ++ ".state"

/-- The keyword arguments main passes to the EsriDumper constructor
(src/esridump/cli.py, lines 138 to 150).  The parent_logger argument is
process logging state and is not modelled. -/
structure EsriDumperArgs where
  url : String
  state : Option DumperState
  update_state : Bool
  extra_query_args : List (String × String)
  extra_headers : List (String × String)
  fields : Option (List String)
  request_geometry : Bool
  proxy : Option String
  timeout : Nat
  max_page_size : Int
  paginate_oid : Bool
  output_format : String

/-- What iterating the constructed dumper does in one run: the features
it yields (their json.dumps texts, in order), whether iteration then
raises an exception instead of finishing, the identity of that
exception, and the dumper internal state at the time the exception
reaches the handler. -/
structure DumperRun where
  features : List String
  raises : Bool
  exc : Nat
  failState : DumperState

/-- Outcome of the phase of main before the dumper is constructed
(src/esridump/cli.py, lines 101 to 123). -/
inductive Phase1 where
  | exit1
  | decodeErr (e : StateError)
  | proceed (state : Option DumperState)

/-- Embeds lines 101 to 123 of src/esridump/cli.py: with to-continue,
writing to stdout exits with status 1; else an existing state file is
read and decoded; else a non-empty output file without a state file
exits with status 1.  Without to-continue a non-empty output file exits
with status 1. -/
def mainPhase1 (args : Args) (fs : Fs) : Phase1 :=
  if args.to_continue then
    if args.outfile_is_stdout then .exit1
    else
      match fs.file (stateFilename args.outfile_name) with
      | some contents =>
          match DumperState.decode contents with
          | .ok st => .proceed (some st)
          | .error e => .decodeErr e
      | none =>
          if fs.outfile_tell ≠ 0 then .exit1 else .proceed none
  else
    if fs.outfile_tell ≠ 0 then .exit1 else .proceed none

/-- The EsriDumper constructor call of src/esridump/cli.py lines
138 to 150, given the decoded state of phase one. -/
def dumperArgsOf (parseHeaderLines parseQueryString : String → List (String × String))
    (args : Args) (st : Option DumperState) : EsriDumperArgs :=
  { url := args.url
    state := st
    update_state := args.to_continue
    extra_query_args := collectParams parseQueryString args.params
    extra_headers := collectHeaders parseHeaderLines args.headers
    fields := args.fields.map (fun s => s.splitOn ",")
    request_geometry := args.request_geometry
    proxy := args.proxy
    timeout := args.timeout
    max_page_size := args.max_page_size
    paginate_oid := args.paginate_oid
    output_format := args.output_format }

/-- The opening text of the FeatureCollection output
(src/esridump/cli.py, line 159). -/
def fcHeader : String := "\x7b\"type\":\"FeatureCollection\",\"features\":[\n"

/-- Writes of the jsonlines loop (src/esridump/cli.py, lines 153 to
156): each yielded feature followed by a newline.  When iteration ends
in an exception the writes are those of the completed loop bodies, so
this also describes an interrupted jsonlines run over the features it
yielded. -/
def jsonlinesWrites : List String → List String
  | [] => []
  | f :: rest => f :: "\n" :: jsonlinesWrites rest

/-- Writes of the FeatureCollection inner loop once a first feature is
in hand (src/esridump/cli.py, lines 163 to 168): write the feature,
pull the next one, write a comma separator, and on StopIteration write
the final newline. -/
def fcLoopWrites : String → List String → List String
  | f, [] => [f, "\n"]
  | f, g :: rest => f :: ",\n" :: fcLoopWrites g rest

/-- Writes of a completed FeatureCollection body after the optional
header: the loop writes followed by the closing bracket
(src/esridump/cli.py, lines 160 to 169). -/
def fcWrites (features : List String) : List String :=
  (match features with
   | [] => ["\n"]
   | f :: rest => fcLoopWrites f rest) ++ ["]\x7d"]

/-- Writes of a FeatureCollection run interrupted by an exception from
the feature iterator: every yielded feature was written, separated by
commas, and neither the final newline nor the closing bracket was
reached (src/esridump/cli.py, lines 160 to 166). -/
def fcInterruptedWrites (features : List String) : List String :=
  List.intersperse ",\n" features

/-- Result of main: exit status 1 before the dumper is constructed and
before anything is written; an exception escaping DumperState.decode; a
finished run; or a run terminated by a re-raised iteration exception.
The last two carry the constructor arguments of the dumper, the texts
written to the output file in order, and the filesystem afterwards. -/
inductive MainResult where
  | exit1
  | decodeErr (e : StateError)
  | finished (d : EsriDumperArgs) (written : List String) (fs : Fs)
  | raised (d : EsriDumperArgs) (exc : Nat) (written : List String) (fs : Fs)

/-- Embeds main from src/esridump/cli.py, lines 98 to 178, over a given
dumper iteration behaviour.  On success with to-continue the state file
is deleted if present (lines 170 to 171); on an exception with
to-continue the encoded dumper state is written to the state file and
the exception re-raised (lines 172 to 178). -/
def mainRun (parseHeaderLines parseQueryString : String → List (String × String))
    (args : Args) (fs : Fs) (run : DumperRun) : MainResult :=
  match mainPhase1 args fs with
  | .exit1 => .exit1
  | .decodeErr e => .decodeErr e
  | .proceed st =>
      let d := dumperArgsOf parseHeaderLines parseQueryString args st
      let sfname := stateFilename args.outfile_name
      let headerWritten := args.to_continue = false ∨ fs.outfile_tell = 0
      if run.raises then
        let written :=
          if args.jsonlines then jsonlinesWrites run.features
          else (if headerWritten then [fcHeader] else []) ++ fcInterruptedWrites run.features
        let fs2 :=
          if args.to_continue then
            { fs with file := fun p => if p = sfname then some run.failState.encode
                                       else fs.file p }
          else fs
        .raised d run.exc written fs2
      else
        let written :=
          if args.jsonlines then jsonlinesWrites run.features
          else (if headerWritten then [fcHeader] else []) ++ fcWrites run.features
        let fs2 :=
          if args.to_continue ∧ (fs.file sfname).isSome then
            { fs with file := fun p => if p = sfname then none else fs.file p }
          else fs
        .finished d written fs2

/-! ## Claims -/

/-- C1: for every checkpoint state s, decoding the text produced by
encoding s yields a state equal to s; this is the DumperState whose
encoded form the CLI writes to the state file on failure and decodes
from the state file on resumption. -/
theorem claim_state_roundtrip (s : DumperState) :
    DumperState.decode (DumperState.encode s) = .ok s :=
  DumperState.decode_encode s

/-- C2: against an unchanged dataset served correctly, under either
pagination strategy the full uninterrupted run yields the whole dataset,
and a new cursor built from the checkpoint taken after n records were
yielded (offset position n under the offset strategy; the outstanding
identifiers from position n on, with any positive batch size, under the
identifier-batch strategy) yields exactly the remaining records, so the
first n records concatenated with the resumed records equal the
uninterrupted sequence. -/
theorem claim_resume_concatenation (dataset : List Feature) (pageSize n fp bs : Nat)
    (t : Option Nat) (hps : 0 < pageSize) (hbs : 0 < bs)
    (hnd : (dataset.map Feature.oid).Nodup) :
    ∃ full, dumpAll dataset pageSize = .ok full ∧
      resumeDump dataset pageSize
          { fingerprint := fp,
            position := .identifierBatch (dataset.map Feature.oid) bs } = .ok full ∧
      resumeDump dataset pageSize { fingerprint := fp, position := .offset n t } =
        .ok (full.drop n) ∧
      resumeDump dataset pageSize
          { fingerprint := fp,
            position := .identifierBatch ((dataset.map Feature.oid).drop n) bs } =
        .ok (full.drop n) ∧
      full.take n ++ full.drop n = full := by
  refine ⟨dataset, dumpAll_ok dataset pageSize hps hnd, ?_,
    resumeDump_offset dataset pageSize fp n t hps hnd, ?_,
    List.take_append_drop n dataset⟩
  · show oidRun (idServer dataset) bs ((dataset.map Feature.oid).length + 1)
        (dataset.map Feature.oid) = .ok dataset
    have h0 := oidRun_idServer dataset bs hbs hnd
      ((dataset.map Feature.oid).length + 1) 0 (by rw [List.length_map]; omega)
    simpa using h0
  · show oidRun (idServer dataset) bs (((dataset.map Feature.oid).drop n).length + 1)
        ((dataset.map Feature.oid).drop n) = .ok (dataset.drop n)
    exact oidRun_idServer dataset bs hbs hnd
      (((dataset.map Feature.oid).drop n).length + 1) n
      (by rw [List.length_drop, List.length_map]; omega)

/-- Witness for C2 at a three-record dataset with page size two and
batch size two, resumed after two records under both strategies. -/
theorem claim_resume_concatenation_witness :
    0 < 2 ∧ 0 < 2 ∧
    (([⟨1, "a"⟩, ⟨2, "b"⟩, ⟨3, "c"⟩] : List Feature).map Feature.oid).Nodup ∧
    ∃ full, dumpAll [⟨1, "a"⟩, ⟨2, "b"⟩, ⟨3, "c"⟩] 2 = .ok full ∧
      resumeDump [⟨1, "a"⟩, ⟨2, "b"⟩, ⟨3, "c"⟩] 2
          { fingerprint := 0,
            position := .identifierBatch
              (([⟨1, "a"⟩, ⟨2, "b"⟩, ⟨3, "c"⟩] : List Feature).map Feature.oid) 2 } =
        .ok full ∧
      resumeDump [⟨1, "a"⟩, ⟨2, "b"⟩, ⟨3, "c"⟩] 2
          { fingerprint := 0, position := .offset 2 none } = .ok (full.drop 2) ∧
      resumeDump [⟨1, "a"⟩, ⟨2, "b"⟩, ⟨3, "c"⟩] 2
          { fingerprint := 0,
            position := .identifierBatch
              ((([⟨1, "a"⟩, ⟨2, "b"⟩, ⟨3, "c"⟩] : List Feature).map Feature.oid).drop 2) 2 } =
        .ok (full.drop 2) ∧
      full.take 2 ++ full.drop 2 = full :=
  ⟨by decide, by decide, by decide,
    claim_resume_concatenation [⟨1, "a"⟩, ⟨2, "b"⟩, ⟨3, "c"⟩] 2 2 0 2 none
      (by decide) (by decide) (by decide)⟩

/-- C6: the maximum page size actually used equals the minimum of the
configured override and the advertised maximum when the override is
positive, and otherwise the maximum of the advertised count and 1000;
the CLI default of -1 selects the latter branch. -/
theorem claim_max_page_size_resolution (m : Int) (serviceMax : Nat) :
    (0 < m → effectiveMaxPageSize m serviceMax = min m.toNat serviceMax) ∧
    effectiveMaxPageSize defaultMaxPageSize serviceMax = max serviceMax 1000 := by
  constructor
  · intro hm
    rw [effectiveMaxPageSize, if_pos hm]
  · simp [effectiveMaxPageSize, defaultMaxPageSize]

/-- Witness for C6 at override five and advertised maximum 700. -/
theorem claim_max_page_size_resolution_witness :
    (effectiveMaxPageSize 5 700 = min (Int.toNat 5) 700) ∧
    effectiveMaxPageSize defaultMaxPageSize 700 = max 700 1000 :=
  ⟨(claim_max_page_size_resolution 5 700).1 (by decide),
    (claim_max_page_size_resolution 5 700).2⟩

/-- C7: under the offset strategy, if the second page is nonempty and
all of its identifiers already occurred in the first page, the cursor
terminates with PaginationStalled, for every remaining request budget,
instead of looping. -/
theorem claim_pagination_stalled (server : Nat → List Feature) (pageSize fuel : Nat)
    (h0 : server 0 ≠ [])
    (hfull : ¬ (server 0).length < pageSize)
    (hne : server (0 + (server 0).length) ≠ [])
    (hrep : ∀ f ∈ server (0 + (server 0).length), f.oid ∈ (server 0).map Feature.oid)
    (hfuel : 2 ≤ fuel) :
    offsetRun server pageSize fuel 0 [] = .error .paginationStalled := by
  rcases Nat.exists_eq_add_of_le hfuel with ⟨k, hk⟩
  subst hk
  rw [show 2 + k = (k + 1) + 1 from by omega]
  rw [offsetRun_succ]
  rw [if_neg h0]
  have hstall0 : ¬ ((server 0).all (fun f => decide (f.oid ∈ ([] : List Nat))) = true) := by
    intro hall
    rcases List.exists_mem_of_ne_nil _ h0 with ⟨g, hg⟩
    rw [List.all_eq_true] at hall
    have hg2 := hall g hg
    rw [decide_eq_true_iff] at hg2
    exact List.not_mem_nil g.oid hg2
  rw [if_neg hstall0, if_neg hfull]
  rw [offsetRun_succ]
  rw [if_neg hne]
  have hstall1 : (server (0 + (server 0).length)).all
      (fun f => decide (f.oid ∈ (server 0).map Feature.oid)) = true := by
    rw [List.all_eq_true]
    intro f hf
    exact decide_eq_true (hrep f hf)
  rw [if_pos hstall1]
  rfl

/-- Witness for C7: a service that returns the same two-record page at
every offset stalls with a budget of two requests. -/
theorem claim_pagination_stalled_witness :
    offsetRun (fun _ => [⟨1, "a"⟩, ⟨2, "b"⟩]) 2 2 0 [] = .error .paginationStalled :=
  claim_pagination_stalled (fun _ => [⟨1, "a"⟩, ⟨2, "b"⟩]) 2 2
    (by decide) (by decide) (by decide) (by decide) (by decide)

/-- C5: both collectors return a mapping with unique keys in which, for
every key, the resulting value is the one contributed by the last input
string whose parsed form contains the key (last write wins); the
per-string parsing itself is done by the Python standard library and is
abstracted as the two parse parameters. -/
theorem claim_collect_last_write_wins
    (parseHeaderLines parseQueryString : String → List (String × String))
    (strings : List String) (k : String) :
    ((collectHeaders parseHeaderLines strings).map Prod.fst).Nodup ∧
    ((collectParams parseQueryString strings).map Prod.fst).Nodup ∧
    getVal k (collectHeaders parseHeaderLines strings) =
      (strings.filterMap (fun s => getVal k (dictOfPairs (parseHeaderLines s)))).getLast? ∧
    getVal k (collectParams parseQueryString strings) =
      (strings.filterMap (fun s => getVal k (dictOfPairs (parseQueryString s)))).getLast? := by
  refine ⟨keys_collect_fold parseHeaderLines strings [] List.nodup_nil,
    keys_collect_fold parseQueryString strings [] List.nodup_nil, ?_, ?_⟩
  · rw [collectHeaders, getVal_collect_fold]
    rw [show getVal k [] = none from rfl, orElseO_none_right]
  · rw [collectParams, getVal_collect_fold]
    rw [show getVal k [] = none from rfl, orElseO_none_right]

/-- Parse function standing in for the Python standard library parsers
in concrete witnesses. -/
def noParse : String → List (String × String) := fun _ => []

/-- A concrete checkpoint state used by the witnesses. -/
def stA : DumperState := { fingerprint := 0, position := .offset 2 none }

/-- Concrete parsed command-line arguments used by the witnesses: a
continuation run writing a FeatureCollection to a file. -/
def argsA : Args :=
  { url := "http://example.com/layer", outfile_name := "out.geojson",
    outfile_is_stdout := false, proxy := none, jsonlines := false, fields := none,
    request_geometry := true, headers := [], params := [], timeout := 30,
    max_page_size := -1, paginate_oid := false, output_format := "geojson",
    to_continue := true }

/-- A concrete filesystem used by the witnesses: the state file exists
with a well-formed encoded state and the output file is non-empty. -/
def fsA : Fs :=
  { file := fun p => if p = "out.geojson.state" then some (DumperState.encode stA) else none,
    outfile_tell := 5 }

/-- A dumper iteration that finishes normally, used by the witnesses. -/
def runOkA : DumperRun :=
  { features := ["x", "y"], raises := false, exc := 0, failState := stA }

/-- A dumper iteration that raises after one record, used by the
witnesses. -/
def runBadA : DumperRun :=
  { features := ["x"], raises := true, exc := 7, failState := stA }

/-- C3: when iteration raises and the pre-checks passed, main re-raises
the same exception; with to-continue it first writes the encoded current
dumper state to the state file named outfile plus .state, touching no
other file, and without to-continue it leaves the filesystem unchanged
(no state file written). -/
theorem claim_raised_saves_state (ph pq : String → List (String × String))
    (args : Args) (fs : Fs) (run : DumperRun) (st : Option DumperState)
    (hp : mainPhase1 args fs = .proceed st) (hr : run.raises = true) :
    ∃ d w fs2, mainRun ph pq args fs run = .raised d run.exc w fs2 ∧
      (args.to_continue = true →
        fs2.file (stateFilename args.outfile_name) =
          some (DumperState.encode run.failState) ∧
        ∀ p, p ≠ stateFilename args.outfile_name → fs2.file p = fs.file p) ∧
      (args.to_continue = false → fs2 = fs) := by
  simp only [mainRun, hp, hr, if_true]
  refine ⟨_, _, _, rfl, ?_, ?_⟩
  · intro htc
    constructor
    · simp [htc]
    · intro p hp2
      simp [htc, hp2]
  · intro htc
    simp [htc]

/-- Witness for C3 at the concrete continuation run that raises. -/
theorem claim_raised_saves_state_witness :
    ∃ d w fs2, mainRun noParse noParse argsA fsA runBadA = .raised d runBadA.exc w fs2 ∧
      (argsA.to_continue = true →
        fs2.file (stateFilename argsA.outfile_name) =
          some (DumperState.encode runBadA.failState) ∧
        ∀ p, p ≠ stateFilename argsA.outfile_name → fs2.file p = fsA.file p) ∧
      (argsA.to_continue = false → fs2 = fsA) :=
  claim_raised_saves_state noParse noParse argsA fsA runBadA (some stA) (by rfl) (by rfl)

/-- C4: with to-continue and an existing state file whose contents
decode, main passes the decoded state and update_state equal to true to
the EsriDumper constructor, whether the subsequent run finishes or
raises. -/
theorem claim_continuation_supplies_state (ph pq : String → List (String × String))
    (args : Args) (fs : Fs) (run : DumperRun) (c : String) (st : DumperState)
    (htc : args.to_continue = true) (hstd : args.outfile_is_stdout = false)
    (hfile : fs.file (stateFilename args.outfile_name) = some c)
    (hdec : DumperState.decode c = .ok st) :
    ∃ d w fs2, d.state = some st ∧ d.update_state = true ∧
      (mainRun ph pq args fs run = .finished d w fs2 ∨
       mainRun ph pq args fs run = .raised d run.exc w fs2) := by
  have hp : mainPhase1 args fs = .proceed (some st) := by
    simp [mainPhase1, htc, hstd, hfile, hdec]
  cases hr : run.raises with
  | true =>
      have h2 : ∃ w fs2, mainRun ph pq args fs run =
          .raised (dumperArgsOf ph pq args (some st)) run.exc w fs2 := by
        simp only [mainRun, hp, hr, if_true]
        exact ⟨_, _, rfl⟩
      rcases h2 with ⟨w, fs2, hw⟩
      exact ⟨dumperArgsOf ph pq args (some st), w, fs2, rfl, htc, Or.inr hw⟩
  | false =>
      have h2 : ∃ w fs2, mainRun ph pq args fs run =
          .finished (dumperArgsOf ph pq args (some st)) w fs2 := by
        simp only [mainRun, hp, hr, Bool.false_eq_true, if_false]
        exact ⟨_, _, rfl⟩
      rcases h2 with ⟨w, fs2, hw⟩
      exact ⟨dumperArgsOf ph pq args (some st), w, fs2, rfl, htc, Or.inl hw⟩

/-- Witness for C4 at the concrete continuation run. -/
theorem claim_continuation_supplies_state_witness :
    ∃ d w fs2, EsriDumperArgs.state d = some stA ∧ EsriDumperArgs.update_state d = true ∧
      (mainRun noParse noParse argsA fsA runOkA = .finished d w fs2 ∨
       mainRun noParse noParse argsA fsA runOkA = .raised d runOkA.exc w fs2) :=
  claim_continuation_supplies_state noParse noParse argsA fsA runOkA
    (DumperState.encode stA) stA (by rfl) (by rfl) (by rfl)
    (DumperState.decode_encode stA)

/-- C8: when iteration finishes without an exception in a to-continue
run whose pre-checks passed, the state file is absent afterwards and no
other file was touched: a completed download leaves no checkpoint
behind. -/
theorem claim_finished_removes_state (ph pq : String → List (String × String))
    (args : Args) (fs : Fs) (run : DumperRun) (st : Option DumperState)
    (hp : mainPhase1 args fs = .proceed st) (hr : run.raises = false)
    (htc : args.to_continue = true) :
    ∃ d w fs2, mainRun ph pq args fs run = .finished d w fs2 ∧
      fs2.file (stateFilename args.outfile_name) = none ∧
      ∀ p, p ≠ stateFilename args.outfile_name → fs2.file p = fs.file p := by
  simp only [mainRun, hp, hr, Bool.false_eq_true, if_false]
  refine ⟨_, _, _, rfl, ?_, ?_⟩
  · cases hex : fs.file (stateFilename args.outfile_name) with
    | none => simp [htc, hex]
    | some c => simp [htc, hex]
  · intro p hp2
    cases hex : fs.file (stateFilename args.outfile_name) with
    | none => simp [htc, hex]
    | some c => simp [htc, hex, hp2]

/-- Witness for C8 at the concrete continuation run that finishes. -/
theorem claim_finished_removes_state_witness :
    ∃ d w fs2, mainRun noParse noParse argsA fsA runOkA = .finished d w fs2 ∧
      fs2.file (stateFilename argsA.outfile_name) = none ∧
      ∀ p, p ≠ stateFilename argsA.outfile_name → fs2.file p = fsA.file p :=
  claim_finished_removes_state noParse noParse argsA fsA runOkA (some stA)
    (by rfl) (by rfl) (by rfl)

/-- C9: main exits with status 1, before constructing the dumper and
writing anything, exactly when to-continue is combined with stdout
output, or to-continue is set with a non-empty output file and no state
file, or to-continue is unset with a non-empty output file. -/
theorem claim_exit_conditions (ph pq : String → List (String × String))
    (args : Args) (fs : Fs) (run : DumperRun) :
    mainRun ph pq args fs run = .exit1 ↔
      (args.to_continue = true ∧ args.outfile_is_stdout = true) ∨
      (args.to_continue = true ∧ fs.file (stateFilename args.outfile_name) = none ∧
        fs.outfile_tell ≠ 0) ∨
      (args.to_continue = false ∧ fs.outfile_tell ≠ 0) := by
  cases htc : args.to_continue with
  | false =>
      by_cases ht : fs.outfile_tell = 0 <;>
        cases hr : run.raises <;>
          simp [mainRun, mainPhase1, htc, ht, hr]
  | true =>
      cases hstd : args.outfile_is_stdout with
      | true => simp [mainRun, mainPhase1, htc, hstd]
      | false =>
          cases hsf : fs.file (stateFilename args.outfile_name) with
          | none =>
              by_cases ht : fs.outfile_tell = 0 <;>
                cases hr : run.raises <;>
                  simp [mainRun, mainPhase1, htc, hstd, hsf, ht, hr]
          | some c =>
              cases hdec : DumperState.decode c <;>
                cases hr : run.raises <;>
                  simp [mainRun, mainPhase1, htc, hstd, hsf, hdec, hr]

/-- C10: in FeatureCollection mode, a run that finishes writes the
opening collection text exactly when the run is not a continuation or
the output file is empty, followed by the loop writes and the closing
bracket, whose text is the last write: a resumed run over a non-empty
file appends without duplicating the header. -/
theorem claim_fc_header_once (ph pq : String → List (String × String))
    (args : Args) (fs : Fs) (run : DumperRun) (st : Option DumperState)
    (hp : mainPhase1 args fs = .proceed st)
    (hjl : args.jsonlines = false) (hr : run.raises = false) :
    ∃ d fs2,
      mainRun ph pq args fs run = .finished d
        ((if args.to_continue = false ∨ fs.outfile_tell = 0 then [fcHeader] else []) ++
          fcWrites run.features) fs2 ∧
      (fcWrites run.features).getLast? = some "]\x7d" := by
  have h2 : ∃ d fs2, mainRun ph pq args fs run = .finished d
      ((if args.to_continue = false ∨ fs.outfile_tell = 0 then [fcHeader] else []) ++
        fcWrites run.features) fs2 := by
    simp only [mainRun, hp, hr, hjl, Bool.false_eq_true, if_false]
    exact ⟨_, _, rfl⟩
  rcases h2 with ⟨d, fs2, hd⟩
  refine ⟨d, fs2, hd, ?_⟩
  cases run.features <;> simp [fcWrites, List.getLast?_concat]

/-- Witness for C10 at the concrete resumed run: the output file is
non-empty and the run is a continuation, so no header is written. -/
theorem claim_fc_header_once_witness :
    ∃ d fs2,
      mainRun noParse noParse argsA fsA runOkA = .finished d
        ((if argsA.to_continue = false ∨ fsA.outfile_tell = 0 then [fcHeader] else []) ++
          fcWrites runOkA.features) fs2 ∧
      (fcWrites runOkA.features).getLast? = some "]\x7d" :=
  claim_fc_header_once noParse noParse argsA fsA runOkA (some stA)
    (by rfl) (by rfl) (by rfl)

end Esridump
